import Mathlib

/-!
Verification of the UnityDanceInfo catalog core: a shallow embedding of the
content-addressed catalog logic from Tools/dance_manager.py,
Tools/dance_gui_manager.py and Tools/sort_dances.py, together with proofs
about scanning, diffing and saving behaviour.

Catalogs (Python dicts keyed by the 8-hex-char fingerprint) are modelled as
insertion-ordered association lists with unique keys; dict assignment is
`pySet` (replace in place, else append), dict lookup is `lookup`.
-/

namespace DanceInfo

/-- A catalog entry (the per-fingerprint metadata dict).  `comment = none`
and `updated = none` model the key being absent from the JSON object. -/
structure Entry where
  name : String
  author : String
  credits : List String
  comment : Option String
  updated : Option String
deriving DecidableEq, Repr

/-- The catalog: a Python dict from fingerprint to entry, modelled as an
insertion-ordered association list (keys unique in any real dict). -/
abbrev Catalog := List (String × Entry)

/-- Python dict lookup: value of the first pair with the given key. -/
def lookup {α : Type} (db : List (String × α)) (k : String) : Option α :=
  match db.find? (fun p => p.1 == k) with
  | some p => some p.2
  | none => none

/-- Python dict assignment `d[k] = v`: replace the value at an existing key
in place, otherwise append the pair at the end. -/
def pySet {α : Type} (db : List (String × α)) (k : String) (v : α) :
    List (String × α) :=
  match db with
  | [] => [(k, v)]
  | p :: rest => if p.1 = k then (k, v) :: rest else p :: pySet rest k v

/-- A file discovered by `rglob("*.unity3d")`: its path components relative
to the Dances directory (last component is the file name), and the result of
`_compute_hash` on it (`none` models a read failure). -/
structure ScanFile where
  rel : List String
  hash : Option String
deriving DecidableEq, Repr

/-- `fpath.name`: the final path component. -/
def fname (f : ScanFile) : String := f.rel.getLastD ""

/-- `fpath.stem` for the scanned `*.unity3d` files: the name with its
`.unity3d` suffix removed. -/
def pyStem (s : String) : String :=
  if s.endsWith ".unity3d" then s.dropRight 8 else s

/-- `DanceManagerBackend._guess_author`: `"Unknown"` when the file sits
directly in the Dances directory, else the immediate parent folder name. -/
def guess_author (f : ScanFile) : String :=
  if f.rel.length ≤ 1 then "Unknown"
  else f.rel.dropLast.getLastD "Unknown"

/-- The brand-new entry created by `scan_local_files` for an unseen
fingerprint: stem as name, inferred author, empty credits, no comment key,
updated = today. -/
def new_scan_entry (f : ScanFile) (today : String) : Entry :=
  ⟨pyStem (fname f), guess_author f, [], none, some today⟩

/-- State threaded through the `scan_local_files` loop: the master DB, the
fresh inventory (fingerprint to file), and the new-entry counter. -/
structure ScanState where
  db : Catalog
  inv : List (String × ScanFile)
  newCount : Nat
deriving DecidableEq, Repr

/-- One iteration of the `scan_local_files` loop body: skip on hash failure,
record the inventory mapping, then either insert a new default entry or, for
a known fingerprint, only fill in a missing `updated` field. -/
def scan_step (today : String) (st : ScanState) (f : ScanFile) : ScanState :=
  match f.hash with
  | none => st
  | some h =>
    let inv2 := pySet st.inv h f
    match lookup st.db h with
    | none =>
        ⟨pySet st.db h (new_scan_entry f today), inv2, st.newCount + 1⟩
    | some e =>
        match e.updated with
        | none =>
            ⟨pySet st.db h ⟨e.name, e.author, e.credits, e.comment, some today⟩,
             inv2, st.newCount⟩
        | some _ => ⟨st.db, inv2, st.newCount⟩

/-- `DanceManagerBackend.scan_local_files`: fold the loop body over the
discovered files, starting from the loaded DB, an empty inventory and a zero
counter. -/
def scan_local_files (files : List ScanFile) (db : Catalog) (today : String) :
    ScanState :=
  files.foldl (scan_step today) ⟨db, [], 0⟩

/-- The `AUTHOR_MAP` table of dance_gui_manager.py (folder name to author;
an identity table on its four keys). -/
def AUTHOR_MAP : List (String × String) :=
  [("tanito", "tanito"), ("wdsa", "wdsa"),
   ("ÂÆâÂçìÂñµ", "ÂÆâÂçìÂñµ"), ("Xenophon", "Xenophon")]

/-- `get_author_from_path` of dance_gui_manager.py: first relative path
component (filename included) found in `AUTHOR_MAP` wins; otherwise fall
back to looking up the parent folder name (the Dances directory itself for a
top-level file), defaulting to `"Unknown"`. -/
def get_author_from_path (f : ScanFile) : String :=
  match f.rel.find? (fun part => (lookup AUTHOR_MAP part).isSome) with
  | some part => (lookup AUTHOR_MAP part).getD "Unknown"
  | none =>
      let parentName :=
        if f.rel.length ≤ 1 then "Dances" else f.rel.dropLast.getLastD "Dances"
      (lookup AUTHOR_MAP parentName).getD "Unknown"

/-- The entry `_refresh_data_worker` builds for an unseen fingerprint: full
filename as name, inferred author, empty credits, an explicit empty comment
string, updated = today. -/
def new_gui_entry (f : ScanFile) (today : String) : Entry :=
  ⟨fname f, get_author_from_path f, [], some "", some today⟩

/-- State threaded through the `_refresh_data_worker` loop: the loaded DB
(mutated in place on rename), the new inventory (fingerprint to file and
entry), and the new-file counter. -/
structure GuiScanState where
  db : Catalog
  inv : List (String × (ScanFile × Entry))
  newCount : Nat
deriving DecidableEq, Repr

/-- One iteration of the `_refresh_data_worker` loop body: on an exact hash
match update the stored name (and `updated`) when it differs from the
current filename; otherwise build a fresh default entry.  Either way the
inventory maps the hash to the resulting data. -/
def refresh_step (today : String) (st : GuiScanState) (f : ScanFile) :
    GuiScanState :=
  match f.hash with
  | none => st
  | some h =>
    match lookup st.db h with
    | some e =>
        if e.name = fname f then
          ⟨st.db, pySet st.inv h (f, e), st.newCount⟩
        else
          let e2 : Entry := ⟨fname f, e.author, e.credits, e.comment, some today⟩
          ⟨pySet st.db h e2, pySet st.inv h (f, e2), st.newCount⟩
    | none =>
        ⟨st.db, pySet st.inv h (f, new_gui_entry f today), st.newCount + 1⟩

/-- `DanceManagerApp._refresh_data_worker` (dance_gui_manager.py): scan all
files against the loaded DB, then save a catalog rebuilt from the new
inventory only (`final_db_to_save`).  Returns that saved catalog and the
final loop state. -/
def refresh_data_worker (files : List ScanFile) (db : Catalog)
    (today : String) : Catalog × GuiScanState :=
  let st := files.foldl (refresh_step today) ⟨db, [], 0⟩
  (st.inv.map (fun p => (p.1, p.2.2)), st)

/-- Python `str()` of a `dict.get` result: an absent key reads back as the
string `"None"`. -/
def pyStr (o : Option String) : String :=
  match o with
  | none => "None"
  | some s => s

/-- The field comparison of `calculate_cloud_diffs`: `str()` on name, author
and comment, plain list equality on credits. -/
def entryDiffers (c l : Entry) : Bool :=
  c.name != l.name || c.author != l.author || c.credits != l.credits ||
    pyStr c.comment != pyStr l.comment

/-- One iteration of the `calculate_cloud_diffs` loop over the cloud dict:
append `(hash, "UPDATE")` for a differing shared fingerprint, append
`(hash, "NEW DB ENTRY")` for a fingerprint absent locally. -/
def diff_step (localDb : Catalog) (acc : List (String × String))
    (p : String × Entry) : List (String × String) :=
  match lookup localDb p.1 with
  | some l => if entryDiffers p.2 l then acc ++ [(p.1, "UPDATE")] else acc
  | none => acc ++ [(p.1, "NEW DB ENTRY")]

/-- `DanceManagerBackend.calculate_cloud_diffs`: fold the loop body over the
cloud catalog's items in order. -/
def calculate_cloud_diffs (localDb cloud : Catalog) : List (String × String) :=
  cloud.foldl (diff_step localDb) []

/-- The per-diff result an iteration contributes, if any (used to reason
about the fold). -/
def diff_result (localDb : Catalog) (p : String × Entry) :
    Option (String × String) :=
  match lookup localDb p.1 with
  | some l => if entryDiffers p.2 l then some (p.1, "UPDATE") else none
  | none => some (p.1, "NEW DB ENTRY")

/-- The comment normalization of `save_db`: drop a comment key holding an
empty (falsy) string, keep everything else. -/
def normalize_comment (e : Entry) : Entry :=
  match e.comment with
  | some c => if c = "" then ⟨e.name, e.author, e.credits, none, e.updated⟩ else e
  | none => e

/-- The in-place loop of `save_db` that deletes empty comments from every
entry of the live DB. -/
def strip_empty_comments (db : Catalog) : Catalog :=
  db.map (fun p => (p.1, normalize_comment p.2))

/-- The sort key of `save_db` and sort_dances.py: the Python tuple
`(entry.author, entry.name, fingerprint)` under lexicographic order. -/
def sortKey (p : String × Entry) : String ×ₗ (String ×ₗ String) :=
  toLex (p.2.author, toLex (p.2.name, p.1))

/-- The comparison the sorting uses: ascending by `sortKey`. -/
def saveLE (a b : String × Entry) : Prop := sortKey a ≤ sortKey b

instance : DecidableRel saveLE :=
  fun a b => inferInstanceAs (Decidable (sortKey a ≤ sortKey b))

instance : IsTotal (String × Entry) saveLE :=
  ⟨fun a b => le_total (sortKey a) (sortKey b)⟩

instance : IsTrans (String × Entry) saveLE :=
  ⟨fun _ _ _ h1 h2 => le_trans h1 h2⟩

/-- `sorted(db.items(), key=lambda item: (author, name, hash))` as in
`save_db` and sort_dances.py, via a stable insertion sort (Python's sort is
stable as well). -/
def sort_dances (db : Catalog) : Catalog := db.insertionSort saveLE

/-- `DanceManagerBackend.save_db`: first mutate the live DB by deleting
empty comments, then serialize its entries sorted by (author, name, hash).
Returns (the mutated in-memory DB, the ordered entry list written to disk). -/
def save_db (db : Catalog) : Catalog × Catalog :=
  let mem := strip_empty_comments db
  (mem, sort_dances mem)

/-- `DanceManagerBackend.load_db`: the parse result of the stored file, or
an empty catalog when the file is missing or unparseable. -/
def load_db (stored : Option Catalog) : Catalog := stored.getD []

/-- File-system operations `save_db` can perform on the catalog file, for
reasoning about interruption mid-write.  `renameReplace` (an atomic
temp-file rename into place) is listed so its absence can be stated. -/
inductive FsOp where
  | openTrunc : FsOp
  | writeChunk : String → FsOp
  | closeFile : FsOp
  | renameReplace : FsOp
deriving DecidableEq, Repr

/-- The operation sequence of `save_db` on the catalog file:
`open(db_file, "w")` (truncate in place), `json.dump` of the serialized
text, close.  No temp file, no rename. -/
def save_db_ops (serialized : String) : List FsOp :=
  [FsOp.openTrunc, FsOp.writeChunk serialized, FsOp.closeFile]

/-- Effect of one file operation on the target file's current content. -/
def applyOp (cur : String) : FsOp → String
  | FsOp.openTrunc => ""
  | FsOp.writeChunk s => cur ++ s
  | FsOp.closeFile => cur
  | FsOp.renameReplace => cur

/-- Target file content after executing a sequence of operations, starting
from the previously persisted content. -/
def runOps (old : String) (ops : List FsOp) : String := ops.foldl applyOp old

/-- The spec's comment comparison for diffing: absent and empty comments
are treated as equal (stated for comparison with the code's `entryDiffers`). -/
def spec_comment_eq (a b : Option String) : Prop := a.getD "" = b.getD ""

instance (a b : Option String) : Decidable (spec_comment_eq a b) :=
  inferInstanceAs (Decidable (a.getD "" = b.getD ""))

/-! ### Helper lemmas on dict operations -/

theorem lookup_cons {α : Type} (p : String × α) (l : List (String × α)) (k : String) :
    lookup (p :: l) k = if p.1 = k then some p.2 else lookup l k := by
  by_cases h : p.1 = k
  · have hb : (p.1 == k) = true := beq_iff_eq.mpr h
    simp [lookup, List.find?, hb, h]
  · have hb : (p.1 == k) = false := beq_eq_false_iff_ne.mpr h
    simp [lookup, List.find?, hb, h]

theorem lookup_pySet_self {α : Type} (db : List (String × α)) (k : String) (v : α) :
    lookup (pySet db k v) k = some v := by
  induction db with
  | nil => simp [pySet, lookup_cons]
  | cons p rest ih =>
      by_cases h : p.1 = k
      · simp [pySet, h, lookup_cons]
      · simp [pySet, h, lookup_cons, ih]

theorem lookup_pySet_ne {α : Type} (db : List (String × α)) (k k2 : String) (v : α)
    (hne : k2 ≠ k) : lookup (pySet db k v) k2 = lookup db k2 := by
  induction db with
  | nil => simp [pySet, lookup_cons, lookup, Ne.symm hne]
  | cons p rest ih =>
      by_cases h : p.1 = k
      · simp [pySet, h, lookup_cons, Ne.symm hne]
      · simp [pySet, h, lookup_cons, ih]

theorem lookup_append {α : Type} (l1 l2 : List (String × α)) (k : String) :
    lookup (l1 ++ l2) k = (lookup l1 k).orElse (fun _ => lookup l2 k) := by
  induction l1 with
  | nil => simp [lookup]
  | cons p rest ih =>
      by_cases h : p.1 = k <;> simp [lookup_cons, h, ih]

theorem pySet_of_lookup_none {α : Type} (db : List (String × α)) (k : String) (v : α)
    (hnone : lookup db k = none) : pySet db k v = db ++ [(k, v)] := by
  induction db with
  | nil => simp [pySet]
  | cons p rest ih =>
      rw [lookup_cons] at hnone
      by_cases h : p.1 = k
      · simp [h] at hnone
      · simp [pySet, h, ih (by simpa [h] using hnone)]

theorem mem_of_lookup_eq_some {α : Type} {db : List (String × α)} {k : String} {v : α}
    (h : lookup db k = some v) : (k, v) ∈ db := by
  unfold lookup at h
  cases hf : db.find? (fun p => p.1 == k) with
  | none => rw [hf] at h; exact absurd h (by simp)
  | some q =>
      rw [hf] at h
      have hq : q ∈ db := List.mem_of_find?_eq_some hf
      have hk : q.1 = k := by simpa using List.find?_some hf
      have hv : q.2 = v := by simpa using h
      have : q = (k, v) := by
        cases q; simp_all
      rwa [this] at hq

theorem lookup_eq_some_of_mem {α : Type} {db : List (String × α)} {k : String} {v : α}
    (nd : (db.map Prod.fst).Nodup) (hm : (k, v) ∈ db) : lookup db k = some v := by
  induction db with
  | nil => simp at hm
  | cons p rest ih =>
      simp only [List.map_cons, List.nodup_cons] at nd
      rw [lookup_cons]
      rcases List.mem_cons.mp hm with h1 | h1
      · simp [← h1]
      · have hk : p.1 ≠ k := by
          intro hkk
          exact nd.1 (hkk ▸ (List.mem_map.mpr ⟨(k, v), h1, rfl⟩))
        simp [hk, ih nd.2 h1]

theorem lookup_isSome_of_mem {α : Type} {db : List (String × α)} {k : String} {v : α}
    (hm : (k, v) ∈ db) : (lookup db k).isSome := by
  induction db with
  | nil => simp at hm
  | cons p rest ih =>
      rw [lookup_cons]
      rcases List.mem_cons.mp hm with h1 | h1
      · simp [← h1]
      · by_cases h : p.1 = k
        · simp [h]
        · simp [h, ih h1]

/-! ### Uniqueness of sorted permutations -/

/-- Two sorted permutations of each other are equal, given antisymmetry of
the order restricted to the elements of the first list. -/
theorem sorted_perm_eq {α : Type} {r : α → α → Prop} :
    ∀ {l1 l2 : List α}, l1.Perm l2 → l1.Sorted r → l2.Sorted r →
      (∀ a ∈ l1, ∀ b ∈ l1, r a b → r b a → a = b) → l1 = l2 := by
  intro l1
  induction l1 with
  | nil =>
      intro l2 hp _ _ _
      exact (hp.symm.eq_nil).symm
  | cons a t ih =>
      intro l2 hp hs1 hs2 hanti
      cases l2 with
      | nil => exact absurd hp.eq_nil (by simp)
      | cons b t2 =>
          have hab : a = b := by
            have hbmem : b ∈ a :: t := hp.symm.subset (List.mem_cons_self b t2)
            have hamem : a ∈ b :: t2 := hp.subset (List.mem_cons_self a t)
            rcases List.mem_cons.mp hbmem with h1 | h1
            · exact h1.symm
            rcases List.mem_cons.mp hamem with h2 | h2
            · exact h2
            have rab : r a b := (List.sorted_cons.mp hs1).1 b h1
            have rba : r b a := (List.sorted_cons.mp hs2).1 a h2
            exact hanti a (List.mem_cons_self a t) b (List.mem_cons.mpr (Or.inr h1)) rab rba
          subst hab
          have hpt : t.Perm t2 := hp.cons_inv
          have ht := ih hpt (List.sorted_cons.mp hs1).2 (List.sorted_cons.mp hs2).2
            (fun x hx y hy => hanti x (List.mem_cons.mpr (Or.inr hx))
              y (List.mem_cons.mpr (Or.inr hy)))
          rw [ht]

/-! ### Facts about save_db components -/

theorem normalize_comment_eq (e : Entry) :
    normalize_comment e =
      ⟨e.name, e.author, e.credits,
        (if e.comment = some "" then none else e.comment), e.updated⟩ := by
  cases e with
  | mk n a cr cm u =>
      cases cm with
      | none => simp [normalize_comment]
      | some c => by_cases h : c = "" <;> simp [normalize_comment, h]

theorem normalize_comment_ne_empty (e : Entry) :
    (normalize_comment e).comment ≠ some "" := by
  rw [normalize_comment_eq]
  by_cases h : e.comment = some "" <;> simp [h]

theorem normalize_comment_idem (e : Entry) :
    normalize_comment (normalize_comment e) = normalize_comment e := by
  rw [normalize_comment_eq, normalize_comment_eq]
  by_cases h : e.comment = some "" <;> simp [h]

theorem strip_keys (db : Catalog) :
    (strip_empty_comments db).map Prod.fst = db.map Prod.fst := by
  simp [strip_empty_comments]

theorem sortKey_eq_key {a b : String × Entry} (h : sortKey a = sortKey b) :
    a.1 = b.1 := by
  unfold sortKey at h
  have h2 : (a.2.author, (a.2.name, a.1)) = (b.2.author, (b.2.name, b.1)) := by
    have := congrArg (fun x => ofLex x) h
    simpa using this
  simpa using congrArg (fun x : String × String × String => x.2.2) h2

theorem sort_dances_perm (db : Catalog) : (sort_dances db).Perm db :=
  List.perm_insertionSort saveLE db

theorem sort_dances_sorted (db : Catalog) : (sort_dances db).Sorted saveLE :=
  List.sorted_insertionSort saveLE db

theorem sort_dances_eq_self_of_unique (db : Catalog)
    (nd : (db.map Prod.fst).Nodup) (hs : db.Sorted saveLE) :
    sort_dances db = db := by
  refine sorted_perm_eq (sort_dances_perm db) (sort_dances_sorted db) hs ?_
  intro a ha b hb hab hba
  have hk : a.1 = b.1 := sortKey_eq_key (le_antisymm hab hba)
  have nd2 : ((sort_dances db).map Prod.fst).Nodup :=
    ((sort_dances_perm db).map Prod.fst).nodup_iff.mpr nd
  exact List.inj_on_of_nodup_map nd2 ha hb hk

/-! ### Facts about the scan loops -/

theorem scan_foldl_all_new (t : String) :
    ∀ (files : List ScanFile) (st : ScanState),
      (∀ f ∈ files, ∃ h, f.hash = some h ∧ lookup st.db h = none) →
      (files.map ScanFile.hash).Nodup →
      (files.foldl (scan_step t) st).db =
          st.db ++ files.map (fun f => (f.hash.getD "", new_scan_entry f t)) ∧
        (files.foldl (scan_step t) st).newCount = st.newCount + files.length := by
  intro files
  induction files with
  | nil => intro st _ _; simp
  | cons f rest ih =>
      intro st hnew hnd
      obtain ⟨h, hh, hnone⟩ := hnew f (List.mem_cons_self f rest)
      have hstep : scan_step t st f =
          ⟨st.db ++ [(h, new_scan_entry f t)], pySet st.inv h f, st.newCount + 1⟩ := by
        simp [scan_step, hh, hnone, pySet_of_lookup_none _ _ _ hnone]
      have hnd2 : (rest.map ScanFile.hash).Nodup := by
        simpa using hnd.of_cons
      have hnew2 : ∀ g ∈ rest, ∃ hg, g.hash = some hg ∧
          lookup (st.db ++ [(h, new_scan_entry f t)]) hg = none := by
        intro g hg
        obtain ⟨hgv, hgh, hgnone⟩ := hnew g (List.mem_cons.mpr (Or.inr hg))
        refine ⟨hgv, hgh, ?_⟩
        have hne : hgv ≠ h := by
          intro he
          have : f.hash ∈ rest.map ScanFile.hash :=
            List.mem_map.mpr ⟨g, hg, by rw [hgh, hh, he]⟩
          simp only [List.map_cons, List.nodup_cons] at hnd
          exact hnd.1 this
        rw [lookup_append, hgnone]
        simp [lookup_cons, lookup, Ne.symm hne]
      have := ih ⟨st.db ++ [(h, new_scan_entry f t)], pySet st.inv h f, st.newCount + 1⟩
        hnew2 hnd2
      constructor
      · rw [List.foldl_cons, hstep]
        rw [this.1]
        simp [hh, List.append_assoc]
      · rw [List.foldl_cons, hstep]
        rw [this.2]
        simp [Nat.add_assoc, Nat.add_comm 1]

theorem lookup_new_entries_map (t : String) :
    ∀ (files : List ScanFile) (f : ScanFile) (h : String),
      (∀ g ∈ files, g.hash.isSome) →
      (files.map ScanFile.hash).Nodup →
      f ∈ files → f.hash = some h →
      lookup (files.map (fun g => (g.hash.getD "", new_scan_entry g t))) h =
        some (new_scan_entry f t) := by
  intro files
  induction files with
  | nil => intro f h _ _ hm; simp at hm
  | cons g rest ih =>
      intro f h hsome hnd hm hh
      rcases List.mem_cons.mp hm with h1 | h1
      · subst h1
        simp [lookup_cons, hh]
      · obtain ⟨hg, hgh⟩ := Option.isSome_iff_exists.mp (hsome g (List.mem_cons_self g rest))
        have hne : hg ≠ h := by
          intro he
          simp only [List.map_cons, List.nodup_cons] at hnd
          exact hnd.1 (List.mem_map.mpr ⟨f, h1, by rw [hh, hgh, he]⟩)
        rw [List.map_cons, lookup_cons]
        have : g.hash.getD "" = hg := by rw [hgh]; rfl
        rw [this]
        simp only [hne, if_false]
        exact ih f h (fun x hx => hsome x (List.mem_cons.mpr (Or.inr hx)))
          (by simpa using hnd.of_cons) h1 hh

theorem scan_step_preserves (t : String) (h : String) (st : ScanState) (f : ScanFile)
    (hne : f.hash ≠ some h) : lookup (scan_step t st f).db h = lookup st.db h := by
  cases hf : f.hash with
  | none => simp [scan_step, hf]
  | some h2 =>
      have hne2 : h ≠ h2 := by
        intro he
        exact hne (by rw [hf, he])
      cases hl : lookup st.db h2 with
      | none => simp [scan_step, hf, hl, lookup_pySet_ne _ _ _ _ hne2]
      | some e =>
          cases hu : e.updated with
          | none => simp [scan_step, hf, hl, hu, lookup_pySet_ne _ _ _ _ hne2]
          | some u => simp [scan_step, hf, hl, hu]

theorem scan_foldl_preserves (t : String) (h : String) :
    ∀ (files : List ScanFile) (st : ScanState),
      (∀ f ∈ files, f.hash ≠ some h) →
      lookup ((files.foldl (scan_step t) st).db) h = lookup st.db h := by
  intro files
  induction files with
  | nil => intro st _; rfl
  | cons f rest ih =>
      intro st hne
      rw [List.foldl_cons]
      rw [ih (scan_step t st f) (fun g hg => hne g (List.mem_cons.mpr (Or.inr hg)))]
      exact scan_step_preserves t h st f (hne f (List.mem_cons_self f rest))

/-! ### Facts about the diff loop -/

theorem diff_step_eq (L : Catalog) (acc : List (String × String)) (p : String × Entry) :
    diff_step L acc p = acc ++ (diff_result L p).toList := by
  unfold diff_step diff_result
  cases lookup L p.1 with
  | none => rfl
  | some l => by_cases h : entryDiffers p.2 l <;> simp [h]

theorem foldl_diff_eq (L : Catalog) :
    ∀ (R : Catalog) (acc : List (String × String)),
      R.foldl (diff_step L) acc = acc ++ R.filterMap (diff_result L) := by
  intro R
  induction R with
  | nil => intro acc; simp
  | cons p rest ih =>
      intro acc
      rw [List.foldl_cons, ih, diff_step_eq]
      cases hd : diff_result L p <;> simp [List.filterMap_cons, hd]

theorem calculate_cloud_diffs_eq (L R : Catalog) :
    calculate_cloud_diffs L R = R.filterMap (diff_result L) := by
  unfold calculate_cloud_diffs
  rw [foldl_diff_eq]
  rfl

theorem diff_result_key (L : Catalog) (p : String × Entry) (h : String) (tag : String)
    (hd : diff_result L p = some (h, tag)) : p.1 = h := by
  unfold diff_result at hd
  cases hl : lookup L p.1 with
  | none =>
      rw [hl] at hd
      simp at hd
      exact hd.1
  | some l =>
      rw [hl] at hd
      by_cases hdif : entryDiffers p.2 l = true
      · simp [hdif] at hd
        exact hd.1
      · simp [hdif] at hd

/-! ### Facts about author inference -/

theorem getLastD_mem : ∀ (l : List String) (d : String), l ≠ [] → l.getLastD d ∈ l := by
  intro l
  induction l with
  | nil => intro d h; simp at h
  | cons a t ih =>
      intro d _
      cases t with
      | nil => simp [List.getLastD]
      | cons b t2 =>
          rw [List.getLastD_cons]
          exact List.mem_cons.mpr (Or.inr (ih a (by simp)))

theorem authormap_getD (k : String) (hk : (lookup AUTHOR_MAP k).isSome) :
    (lookup AUTHOR_MAP k).getD "Unknown" = k := by
  unfold AUTHOR_MAP at *
  rw [lookup_cons, lookup_cons, lookup_cons, lookup_cons] at *
  split_ifs at * with h1 h2 h3 h4 <;> simp_all [lookup]

theorem authormap_dances : lookup AUTHOR_MAP "Dances" = none := by decide

theorem strip_eq_self (l : Catalog) (h : ∀ p ∈ l, normalize_comment p.2 = p.2) :
    strip_empty_comments l = l := by
  unfold strip_empty_comments
  induction l with
  | nil => rfl
  | cons p t ih =>
      rw [List.map_cons, ih (fun q hq => h q (List.mem_cons.mpr (Or.inr hq)))]
      rw [h p (List.mem_cons_self p t)]

/-! ### Claim theorems -/

/-- Claim C4: `save_db` first drops the `comment` field from each entry
whose comment is empty, then writes the entries ordered ascending by the
tuple (author, name, fingerprint); therefore the serialized output is
deterministic — two catalogs (with unique fingerprints) that are equal as
mappings up to comment normalization produce identical ordered output,
hence identical on-disk bytes. -/
theorem save_db_deterministic (db1 db2 : Catalog)
    (nd : (db1.map Prod.fst).Nodup)
    (hnorm : (strip_empty_comments db1).Perm (strip_empty_comments db2)) :
    (save_db db1).2.Sorted saveLE ∧
      (save_db db1).2.Perm (strip_empty_comments db1) ∧
      (∀ p ∈ (save_db db1).2, p.2.comment ≠ some "") ∧
      (save_db db1).2 = (save_db db2).2 := by
  have h1 : (save_db db1).2 = sort_dances (strip_empty_comments db1) := rfl
  have h2 : (save_db db2).2 = sort_dances (strip_empty_comments db2) := rfl
  have hperm1 := sort_dances_perm (strip_empty_comments db1)
  have hperm2 := sort_dances_perm (strip_empty_comments db2)
  have hndkeys : ((strip_empty_comments db1).map Prod.fst).Nodup := by
    rw [strip_keys]; exact nd
  have hnd1 : ((sort_dances (strip_empty_comments db1)).map Prod.fst).Nodup :=
    (hperm1.map Prod.fst).nodup_iff.mpr hndkeys
  refine ⟨h1 ▸ sort_dances_sorted _, h1 ▸ hperm1, ?_, ?_⟩
  · intro p hp
    rw [h1] at hp
    have hp2 : p ∈ strip_empty_comments db1 := hperm1.subset hp
    obtain ⟨q, _, hq⟩ := List.mem_map.mp hp2
    rw [← hq]
    exact normalize_comment_ne_empty q.2
  · rw [h1, h2]
    refine sorted_perm_eq (hperm1.trans (hnorm.trans hperm2.symm))
      (sort_dances_sorted _) (sort_dances_sorted _) ?_
    intro a ha b hb hab hba
    exact List.inj_on_of_nodup_map hnd1 ha hb (sortKey_eq_key (le_antisymm hab hba))

/-- Witness for C4 at a concrete pair of catalogs that differ in entry
order and in an empty-versus-absent comment, yet save identically. -/
theorem save_db_deterministic_witness :
    (save_db [("h2", ⟨"B", "X", [], some "", some "2024-01-01"⟩),
              ("h1", ⟨"A", "X", [], none, some "2024-01-02"⟩)]).2.Sorted saveLE ∧
      (save_db [("h2", ⟨"B", "X", [], some "", some "2024-01-01"⟩),
                ("h1", ⟨"A", "X", [], none, some "2024-01-02"⟩)]).2.Perm
        (strip_empty_comments [("h2", ⟨"B", "X", [], some "", some "2024-01-01"⟩),
              ("h1", ⟨"A", "X", [], none, some "2024-01-02"⟩)]) ∧
      (∀ p ∈ (save_db [("h2", ⟨"B", "X", [], some "", some "2024-01-01"⟩),
              ("h1", ⟨"A", "X", [], none, some "2024-01-02"⟩)]).2,
        p.2.comment ≠ some "") ∧
      (save_db [("h2", ⟨"B", "X", [], some "", some "2024-01-01"⟩),
                ("h1", ⟨"A", "X", [], none, some "2024-01-02"⟩)]).2 =
        (save_db [("h1", ⟨"A", "X", [], none, some "2024-01-02"⟩),
                  ("h2", ⟨"B", "X", [], none, some "2024-01-01"⟩)]).2 :=
  save_db_deterministic
    [("h2", ⟨"B", "X", [], some "", some "2024-01-01"⟩),
     ("h1", ⟨"A", "X", [], none, some "2024-01-02"⟩)]
    [("h1", ⟨"A", "X", [], none, some "2024-01-02"⟩),
     ("h2", ⟨"B", "X", [], none, some "2024-01-01"⟩)]
    (by decide) (by decide)

/-- Claim C9: saving a well-formed catalog, loading the stored result and
saving again produces the same serialized output as saving directly
(`save(load(save X)) = save X`); no entry of the original catalog is lost
across the round trip, the only change being removal of empty comments. -/
theorem save_load_save_roundtrip (db : Catalog) (nd : (db.map Prod.fst).Nodup) :
    (save_db (load_db (some ((save_db db).2)))).2 = (save_db db).2 ∧
      (∀ p ∈ db, (p.1, normalize_comment p.2) ∈ (save_db db).2) ∧
      ((save_db db).2.map Prod.fst).Perm (db.map Prod.fst) := by
  have hperm := sort_dances_perm (strip_empty_comments db)
  have hout : (save_db db).2 = sort_dances (strip_empty_comments db) := rfl
  have hndkeys : ((strip_empty_comments db).map Prod.fst).Nodup := by
    rw [strip_keys]; exact nd
  have hndsort : ((sort_dances (strip_empty_comments db)).map Prod.fst).Nodup :=
    (hperm.map Prod.fst).nodup_iff.mpr hndkeys
  have hstrip :
      strip_empty_comments (sort_dances (strip_empty_comments db)) =
        sort_dances (strip_empty_comments db) := by
    refine strip_eq_self _ ?_
    intro p hp
    obtain ⟨q, _, hq⟩ := List.mem_map.mp (hperm.subset hp)
    rw [← hq]
    exact normalize_comment_idem q.2
  refine ⟨?_, ?_, ?_⟩
  · show (save_db (sort_dances (strip_empty_comments db))).2 = _
    have : (save_db (sort_dances (strip_empty_comments db))).2 =
        sort_dances (strip_empty_comments (sort_dances (strip_empty_comments db))) := rfl
    rw [hout, this, hstrip]
    exact sort_dances_eq_self_of_unique _ hndsort (sort_dances_sorted _)
  · intro p hp
    rw [hout]
    exact hperm.symm.subset (List.mem_map.mpr ⟨p, hp, rfl⟩)
  · rw [hout]
    have := hperm.map Prod.fst
    rwa [strip_keys] at this

/-- Witness for C9 at a concrete one-entry catalog with an empty comment. -/
theorem save_load_save_roundtrip_witness :
    (save_db (load_db (some ((save_db
        [("h1", ⟨"A", "X", [], some "", some "2024-01-01"⟩)]).2)))).2 =
      (save_db [("h1", ⟨"A", "X", [], some "", some "2024-01-01"⟩)]).2 ∧
      (∀ p ∈ ([("h1", ⟨"A", "X", [], some "", some "2024-01-01"⟩)] : Catalog),
        (p.1, normalize_comment p.2) ∈
          (save_db [("h1", ⟨"A", "X", [], some "", some "2024-01-01"⟩)]).2) ∧
      ((save_db [("h1", ⟨"A", "X", [], some "", some "2024-01-01"⟩)]).2.map
          Prod.fst).Perm
        (([("h1", ⟨"A", "X", [], some "", some "2024-01-01"⟩)] : Catalog).map
          Prod.fst) :=
  save_load_save_roundtrip
    [("h1", ⟨"A", "X", [], some "", some "2024-01-01"⟩)] (by decide)

/-- Claim C10: `save_db` mutates the live in-memory catalog it serializes:
it deletes the `comment` field from every entry whose comment is present
but empty, leaves every other field (and the entry order) unchanged, and
the ordered output it writes is computed from that mutated catalog.  After
the save the in-memory catalog holds no empty comment field. -/
theorem save_mutates_in_memory_comments (db : Catalog) :
    (save_db db).1 =
        db.map (fun p => (p.1,
          ⟨p.2.name, p.2.author, p.2.credits,
            (if p.2.comment = some "" then none else p.2.comment),
            p.2.updated⟩)) ∧
      (∀ p ∈ (save_db db).1, p.2.comment ≠ some "") ∧
      (save_db db).2 = sort_dances ((save_db db).1) := by
  refine ⟨?_, ?_, rfl⟩
  · show strip_empty_comments db = _
    unfold strip_empty_comments
    simp only [normalize_comment_eq]
  · intro p hp
    obtain ⟨q, _, hq⟩ := List.mem_map.mp hp
    rw [← hq]
    exact normalize_comment_ne_empty q.2

/-- Claim C1 counterexample: a file whose content changed while its name
stayed the same (old fingerprint "aaaa1111" in the catalog, file now hashes
to "bbbb2222").  After `scan_local_files` the old fingerprint is still in
the catalog and the new fingerprint's entry does not carry the old author
annotation — refuting both halves of the claimed migration. -/
theorem claim_migration_counterexample :
    ¬ (lookup (scan_local_files
          [⟨["sub", "dance.unity3d"], some "bbbb2222"⟩]
          [("aaaa1111",
            ⟨"dance", "Alice", ["Motion: M"], some "note", some "2024-01-01"⟩)]
          "2025-06-01").db "aaaa1111" = none ∧
        (lookup (scan_local_files
          [⟨["sub", "dance.unity3d"], some "bbbb2222"⟩]
          [("aaaa1111",
            ⟨"dance", "Alice", ["Motion: M"], some "note", some "2024-01-01"⟩)]
          "2025-06-01").db "bbbb2222").map Entry.author = some "Alice") := by
  decide

/-- Claim C1 (amended): `scan_local_files` performs no content-change
migration.  For a scanned file whose fingerprint is new to the catalog
while some old fingerprint still holds the annotations, the scan creates a
fresh default entry under the new fingerprint (stem as name, path-inferred
author, empty credits, no comment, updated = today) and leaves the old
fingerprint's entry present and unchanged; nothing is carried over and
nothing is removed. -/
theorem scan_no_migration (db : Catalog) (f : ScanFile) (h1 h2 : String)
    (e1 : Entry) (today : String)
    (hh : f.hash = some h2) (hold : lookup db h1 = some e1)
    (hnew : lookup db h2 = none) (hne : h1 ≠ h2) :
    lookup (scan_local_files [f] db today).db h1 = some e1 ∧
      lookup (scan_local_files [f] db today).db h2 =
        some (new_scan_entry f today) := by
  have hstep : scan_local_files [f] db today =
      ⟨pySet db h2 (new_scan_entry f today), pySet [] h2 f, 1⟩ := by
    simp [scan_local_files, scan_step, hh, hnew]
  rw [hstep]
  exact ⟨(lookup_pySet_ne db h2 h1 _ hne).trans hold, lookup_pySet_self db h2 _⟩

/-- Witness for the amended C1 theorem at the counterexample's input. -/
theorem scan_no_migration_witness :
    lookup (scan_local_files [⟨["sub", "dance.unity3d"], some "bbbb2222"⟩]
        [("aaaa1111",
          ⟨"dance", "Alice", ["Motion: M"], some "note", some "2024-01-01"⟩)]
        "2025-06-01").db "aaaa1111" =
      some ⟨"dance", "Alice", ["Motion: M"], some "note", some "2024-01-01"⟩ ∧
      lookup (scan_local_files [⟨["sub", "dance.unity3d"], some "bbbb2222"⟩]
        [("aaaa1111",
          ⟨"dance", "Alice", ["Motion: M"], some "note", some "2024-01-01"⟩)]
        "2025-06-01").db "bbbb2222" =
        some (new_scan_entry ⟨["sub", "dance.unity3d"], some "bbbb2222"⟩
          "2025-06-01") :=
  scan_no_migration
    [("aaaa1111", ⟨"dance", "Alice", ["Motion: M"], some "note", some "2024-01-01"⟩)]
    ⟨["sub", "dance.unity3d"], some "bbbb2222"⟩ "aaaa1111" "bbbb2222"
    ⟨"dance", "Alice", ["Motion: M"], some "note", some "2024-01-01"⟩ "2025-06-01"
    (by decide) (by decide) (by decide) (by decide)

/-- Claim C2 counterexample: fingerprint "cccc3333" is already in the
catalog under the stale name "oldname", and the file on disk is now called
"newname.unity3d".  After `DanceManagerBackend.scan_local_files` the stored
name is still "oldname" — the backend scan does not rename, refuting the
claim for that scan. -/
theorem claim_rename_counterexample :
    ¬ ((lookup (scan_local_files [⟨["sub", "newname.unity3d"], some "cccc3333"⟩]
          [("cccc3333", ⟨"oldname", "Alice", [], none, some "2024-01-01"⟩)]
          "2025-06-01").db "cccc3333").map Entry.name = some "newname.unity3d" ∨
        (lookup (scan_local_files [⟨["sub", "newname.unity3d"], some "cccc3333"⟩]
          [("cccc3333", ⟨"oldname", "Alice", [], none, some "2024-01-01"⟩)]
          "2025-06-01").db "cccc3333").map Entry.name = some "newname") := by
  decide

/-- Claim C2 (amended): for a scanned file whose fingerprint is already in
the catalog, `DanceManagerBackend.scan_local_files` never changes the
stored name (it only fills in a missing `updated` field, leaving name,
author, credits and comment untouched), while the GUI's
`_refresh_data_worker` does set the entry's name to the current filename
and `updated` to today when the names differ — and in either scan the
author, credits and comment are left exactly as they were. -/
theorem rescan_existing_entry_behavior (db : Catalog) (f : ScanFile)
    (h : String) (e : Entry) (today : String)
    (hh : f.hash = some h) (he : lookup db h = some e) :
    lookup (scan_local_files [f] db today).db h =
        some ⟨e.name, e.author, e.credits, e.comment,
          some (e.updated.getD today)⟩ ∧
      (refresh_data_worker [f] db today).1 =
        [(h, if e.name = fname f then e
             else ⟨fname f, e.author, e.credits, e.comment, some today⟩)] := by
  constructor
  · obtain ⟨n, a, cr, cm, u⟩ := e
    cases u with
    | none =>
        have hstep : scan_local_files [f] db today =
            ⟨pySet db h ⟨n, a, cr, cm, some today⟩, pySet [] h f, 0⟩ := by
          simp [scan_local_files, scan_step, hh, he]
        rw [hstep]
        simpa using lookup_pySet_self db h (⟨n, a, cr, cm, some today⟩ : Entry)
    | some u =>
        have hstep : scan_local_files [f] db today =
            ⟨db, pySet [] h f, 0⟩ := by
          simp [scan_local_files, scan_step, hh, he]
        rw [hstep]
        simpa using he
  · by_cases hn : e.name = fname f
    · simp [refresh_data_worker, refresh_step, hh, he, hn, pySet]
    · simp [refresh_data_worker, refresh_step, hh, he, hn, pySet]

/-- Witness for the amended C2 theorem: one rescan of a renamed file
through both scan variants. -/
theorem rescan_existing_entry_behavior_witness :
    lookup (scan_local_files [⟨["sub", "newname.unity3d"], some "cccc3333"⟩]
        [("cccc3333", ⟨"oldname", "Alice", [], none, some "2024-01-01"⟩)]
        "2025-06-01").db "cccc3333" =
      some ⟨"oldname", "Alice", [], none,
        some ((some "2024-01-01").getD "2025-06-01")⟩ ∧
      (refresh_data_worker [⟨["sub", "newname.unity3d"], some "cccc3333"⟩]
        [("cccc3333", ⟨"oldname", "Alice", [], none, some "2024-01-01"⟩)]
        "2025-06-01").1 =
        [("cccc3333",
          if ("oldname" : String) =
              fname ⟨["sub", "newname.unity3d"], some "cccc3333"⟩ then
            ⟨"oldname", "Alice", [], none, some "2024-01-01"⟩
          else
            ⟨fname ⟨["sub", "newname.unity3d"], some "cccc3333"⟩,
              "Alice", [], none, some "2025-06-01"⟩)] :=
  rescan_existing_entry_behavior
    [("cccc3333", ⟨"oldname", "Alice", [], none, some "2024-01-01"⟩)]
    ⟨["sub", "newname.unity3d"], some "cccc3333"⟩ "cccc3333"
    ⟨"oldname", "Alice", [], none, some "2024-01-01"⟩ "2025-06-01"
    (by decide) (by decide)

/-- Claim C5 counterexample: the GUI's `_refresh_data_worker` purges
entries whose fingerprint is not among the found files — after the scan the
old entry "aaaa1111" is gone from the saved catalog, refuting retention for
that scan. -/
theorem claim_retention_counterexample :
    lookup (refresh_data_worker [⟨["x.unity3d"], some "bbbb2222"⟩]
        [("aaaa1111",
          ⟨"dance", "Alice", ["Motion: M"], some "note", some "2024-01-01"⟩)]
        "2025-06-01").1 "aaaa1111" = none ∧
      ¬ (lookup (refresh_data_worker [⟨["x.unity3d"], some "bbbb2222"⟩]
          [("aaaa1111",
            ⟨"dance", "Alice", ["Motion: M"], some "note", some "2024-01-01"⟩)]
          "2025-06-01").1 "aaaa1111" =
        some ⟨"dance", "Alice", ["Motion: M"], some "note", some "2024-01-01"⟩) := by
  decide

/-- Claim C5 (amended): `DanceManagerBackend.scan_local_files` retains
entries whose fingerprint was not found on disk — they are present and
unchanged after the scan, which only inserts or updates entries for
discovered fingerprints; the GUI variant `_refresh_data_worker`, by
contrast, rebuilds the saved catalog from found files only, so such
entries are absent from its output. -/
theorem scan_retains_missing_entries (files : List ScanFile) (db : Catalog)
    (today : String) (h : String) (habs : ∀ f ∈ files, f.hash ≠ some h) :
    lookup (scan_local_files files db today).db h = lookup db h ∧
      lookup (refresh_data_worker files db today).1 h = none := by
  constructor
  · exact scan_foldl_preserves today h files ⟨db, [], 0⟩ habs
  · have haux : ∀ (fs : List ScanFile) (st : GuiScanState),
        (∀ f ∈ fs, f.hash ≠ some h) →
        lookup ((fs.foldl (refresh_step today) st).inv) h = lookup st.inv h := by
      intro fs
      induction fs with
      | nil => intro st _; rfl
      | cons f rest ih =>
          intro st hne
          rw [List.foldl_cons,
            ih (refresh_step today st f)
              (fun g hg => hne g (List.mem_cons.mpr (Or.inr hg)))]
          have hf := hne f (List.mem_cons_self f rest)
          cases hfh : f.hash with
          | none => simp [refresh_step, hfh]
          | some h2 =>
              have hne2 : h ≠ h2 := fun heq => hf (by rw [hfh, heq])
              cases hl : lookup st.db h2 with
              | none => simp [refresh_step, hfh, hl, lookup_pySet_ne _ _ _ _ hne2]
              | some e =>
                  by_cases hn : e.name = fname f <;>
                    simp [refresh_step, hfh, hl, hn, lookup_pySet_ne _ _ _ _ hne2]
    have hinv : lookup ((files.foldl (refresh_step today) ⟨db, [], 0⟩).inv) h = none :=
      haux files ⟨db, [], 0⟩ habs
    show lookup (((files.foldl (refresh_step today) ⟨db, [], 0⟩).inv).map
        (fun p => (p.1, p.2.2))) h = none
    have hmap : ∀ (l : List (String × (ScanFile × Entry))),
        lookup (l.map (fun p => (p.1, p.2.2))) h = (lookup l h).map Prod.snd := by
      intro l
      induction l with
      | nil => rfl
      | cons p t ih =>
          by_cases hp : p.1 = h <;>
            simp [List.map_cons, lookup_cons, hp, ih]
    rw [hmap, hinv]
    rfl

/-- Witness for the amended C5 theorem at the counterexample's input. -/
theorem scan_retains_missing_entries_witness :
    lookup (scan_local_files [⟨["x.unity3d"], some "bbbb2222"⟩]
        [("aaaa1111",
          ⟨"dance", "Alice", ["Motion: M"], some "note", some "2024-01-01"⟩)]
        "2025-06-01").db "aaaa1111" =
      lookup
        [("aaaa1111",
          ⟨"dance", "Alice", ["Motion: M"], some "note", some "2024-01-01"⟩)]
        "aaaa1111" ∧
      lookup (refresh_data_worker [⟨["x.unity3d"], some "bbbb2222"⟩]
        [("aaaa1111",
          ⟨"dance", "Alice", ["Motion: M"], some "note", some "2024-01-01"⟩)]
        "2025-06-01").1 "aaaa1111" = none :=
  scan_retains_missing_entries [⟨["x.unity3d"], some "bbbb2222"⟩]
    [("aaaa1111", ⟨"dance", "Alice", ["Motion: M"], some "note", some "2024-01-01"⟩)]
    "2025-06-01" "aaaa1111" (by decide)

/-- Claim C8: scanning N readable files with N pairwise-distinct contents
(hence pairwise-distinct fingerprints) against an initially empty catalog
leaves exactly N entries, returns NewEntryCount = N, and gives every new
entry the default shape: stem of the filename as name, author from path
inference, empty credits, no comment field, `updated` = today. -/
theorem scan_empty_catalog_new_entries (files : List ScanFile) (today : String)
    (hread : ∀ f ∈ files, f.hash.isSome)
    (hdist : (files.map ScanFile.hash).Nodup) :
    (scan_local_files files [] today).db.length = files.length ∧
      (scan_local_files files [] today).newCount = files.length ∧
      ∀ f ∈ files, ∀ h, f.hash = some h →
        lookup (scan_local_files files [] today).db h =
          some ⟨pyStem (fname f), guess_author f, [], none, some today⟩ := by
  have hann : ∀ f ∈ files, ∃ h, f.hash = some h ∧
      lookup ([] : Catalog) h = none := by
    intro f hf
    obtain ⟨h, hh⟩ := Option.isSome_iff_exists.mp (hread f hf)
    exact ⟨h, hh, rfl⟩
  have haux := scan_foldl_all_new today files ⟨[], [], 0⟩ hann hdist
  have hdb : (scan_local_files files [] today).db =
      files.map (fun f => (f.hash.getD "", new_scan_entry f today)) := by
    have := haux.1
    simpa [scan_local_files] using this
  refine ⟨?_, ?_, ?_⟩
  · rw [hdb]; simp
  · have := haux.2
    simpa [scan_local_files] using this
  · intro f hf h hh
    rw [hdb]
    exact lookup_new_entries_map today files f h hread hdist hf hh

/-- Witness for C8 with two distinct files in author subfolders. -/
theorem scan_empty_catalog_new_entries_witness :
    (scan_local_files [⟨["Alice", "a.unity3d"], some "aaaa1111"⟩,
        ⟨["b.unity3d"], some "bbbb2222"⟩] [] "2025-06-01").db.length = 2 ∧
      (scan_local_files [⟨["Alice", "a.unity3d"], some "aaaa1111"⟩,
        ⟨["b.unity3d"], some "bbbb2222"⟩] [] "2025-06-01").newCount = 2 ∧
      ∀ f ∈ [(⟨["Alice", "a.unity3d"], some "aaaa1111"⟩ : ScanFile),
        ⟨["b.unity3d"], some "bbbb2222"⟩], ∀ h, f.hash = some h →
        lookup (scan_local_files [⟨["Alice", "a.unity3d"], some "aaaa1111"⟩,
          ⟨["b.unity3d"], some "bbbb2222"⟩] [] "2025-06-01").db h =
          some ⟨pyStem (fname f), guess_author f, [], none, some "2025-06-01"⟩ :=
  scan_empty_catalog_new_entries
    [⟨["Alice", "a.unity3d"], some "aaaa1111"⟩, ⟨["b.unity3d"], some "bbbb2222"⟩]
    "2025-06-01" (by decide) (by decide)

/-- Claim C3 counterexample: a fingerprint present in both catalogs whose
entries agree on name, author and credits, and whose comments are equal
under the claimed absent-equals-empty normalization (`spec_comment_eq`),
still produces an UPDATE diff entry — because the code compares
`str(get('comment'))`, under which an absent comment reads "None". -/
theorem claim_diff_comment_counterexample :
    calculate_cloud_diffs
        [("h1", ⟨"A", "X", [], none, some "2024-01-01"⟩)]
        [("h1", ⟨"A", "X", [], some "", none⟩)] = [("h1", "UPDATE")] ∧
      (⟨"A", "X", [], some "", none⟩ : Entry).name =
        (⟨"A", "X", [], none, some "2024-01-01"⟩ : Entry).name ∧
      (⟨"A", "X", [], some "", none⟩ : Entry).author =
        (⟨"A", "X", [], none, some "2024-01-01"⟩ : Entry).author ∧
      (⟨"A", "X", [], some "", none⟩ : Entry).credits =
        (⟨"A", "X", [], none, some "2024-01-01"⟩ : Entry).credits ∧
      spec_comment_eq (⟨"A", "X", [], some "", none⟩ : Entry).comment
        (⟨"A", "X", [], none, some "2024-01-01"⟩ : Entry).comment := by
  decide

/-- Claim C3 (amended): `calculate_cloud_diffs` yields an UPDATE entry for
exactly the fingerprints present in both catalogs whose entries differ in
name, author, credits (sequence equality) or comment — where comments are
compared as Python `str()` of the looked-up value, so an absent comment
(read as "None") differs from an empty-string comment; it yields a
NEW DB ENTRY item for exactly the fingerprints present only remotely, and
nothing at all for fingerprints absent from the remote catalog. -/
theorem cloud_diffs_characterization (L R : Catalog)
    (ndR : (R.map Prod.fst).Nodup) (h : String) :
    ((h, "UPDATE") ∈ calculate_cloud_diffs L R ↔
        ∃ c l, lookup R h = some c ∧ lookup L h = some l ∧
          entryDiffers c l = true) ∧
      ((h, "NEW DB ENTRY") ∈ calculate_cloud_diffs L R ↔
        (lookup R h).isSome ∧ lookup L h = none) ∧
      (lookup R h = none → ∀ tag, (h, tag) ∉ calculate_cloud_diffs L R) := by
  rw [calculate_cloud_diffs_eq]
  refine ⟨⟨?_, ?_⟩, ⟨?_, ?_⟩, ?_⟩
  · intro hm
    obtain ⟨p, hpR, hp⟩ := List.mem_filterMap.mp hm
    have hkey : p.1 = h := diff_result_key L p h "UPDATE" hp
    unfold diff_result at hp
    cases hl : lookup L p.1 with
    | none =>
        rw [hl] at hp
        simp at hp
    | some l =>
        rw [hl] at hp
        by_cases hdif : entryDiffers p.2 l = true
        · refine ⟨p.2, l, ?_, ?_, hdif⟩
          · rw [← hkey]
            exact lookup_eq_some_of_mem ndR hpR
          · rw [← hkey]
            exact hl
        · simp [hdif] at hp
  · rintro ⟨c, l, hc, hl, hdif⟩
    refine List.mem_filterMap.mpr ⟨(h, c), mem_of_lookup_eq_some hc, ?_⟩
    simp [diff_result, hl, hdif]
  · intro hm
    obtain ⟨p, hpR, hp⟩ := List.mem_filterMap.mp hm
    have hkey : p.1 = h := diff_result_key L p h "NEW DB ENTRY" hp
    unfold diff_result at hp
    cases hl : lookup L p.1 with
    | none =>
        refine ⟨?_, ?_⟩
        · rw [← hkey]
          exact lookup_isSome_of_mem hpR
        · rw [← hkey]
          exact hl
    | some l =>
        rw [hl] at hp
        by_cases hdif : entryDiffers p.2 l = true
        · simp [hdif] at hp
        · simp [hdif] at hp
  · rintro ⟨hsome, hnone⟩
    obtain ⟨c, hc⟩ := Option.isSome_iff_exists.mp hsome
    refine List.mem_filterMap.mpr ⟨(h, c), mem_of_lookup_eq_some hc, ?_⟩
    simp [diff_result, hnone]
  · intro hnone tag hm
    obtain ⟨p, hpR, hp⟩ := List.mem_filterMap.mp hm
    have hkey : p.1 = h := diff_result_key L p h tag hp
    have hsome : (lookup R h).isSome := by
      rw [← hkey]
      exact lookup_isSome_of_mem hpR
    rw [hnone] at hsome
    simp at hsome

/-- Witness for the amended C3 theorem at the counterexample's catalogs. -/
theorem cloud_diffs_characterization_witness :
    (("h1", "UPDATE") ∈ calculate_cloud_diffs
          [("h1", ⟨"A", "X", [], none, some "2024-01-01"⟩)]
          [("h1", ⟨"A", "X", [], some "", none⟩)] ↔
        ∃ c l, lookup ([("h1", ⟨"A", "X", [], some "", none⟩)] : Catalog) "h1" =
            some c ∧
          lookup ([("h1", ⟨"A", "X", [], none, some "2024-01-01"⟩)] : Catalog)
            "h1" = some l ∧
          entryDiffers c l = true) ∧
      (("h1", "NEW DB ENTRY") ∈ calculate_cloud_diffs
          [("h1", ⟨"A", "X", [], none, some "2024-01-01"⟩)]
          [("h1", ⟨"A", "X", [], some "", none⟩)] ↔
        (lookup ([("h1", ⟨"A", "X", [], some "", none⟩)] : Catalog) "h1").isSome ∧
          lookup ([("h1", ⟨"A", "X", [], none, some "2024-01-01"⟩)] : Catalog)
            "h1" = none) ∧
      (lookup ([("h1", ⟨"A", "X", [], some "", none⟩)] : Catalog) "h1" = none →
        ∀ tag, ("h1", tag) ∉ calculate_cloud_diffs
          [("h1", ⟨"A", "X", [], none, some "2024-01-01"⟩)]
          [("h1", ⟨"A", "X", [], some "", none⟩)]) :=
  cloud_diffs_characterization
    [("h1", ⟨"A", "X", [], none, some "2024-01-01"⟩)]
    [("h1", ⟨"A", "X", [], some "", none⟩)] (by decide) "h1"

/-- Claim C7 counterexample: for a file nested two levels deep
(Dances/AuthorA/Deep/file.unity3d), `_guess_author` returns the immediate
parent folder "Deep" rather than the first subfolder "AuthorA", and the
GUI's `get_author_from_path` returns "Unknown" since no component is in
`AUTHOR_MAP` — both refute the first-subfolder claim. -/
theorem claim_author_counterexample :
    guess_author ⟨["AuthorA", "Deep", "file.unity3d"], none⟩ = "Deep" ∧
      ¬ (guess_author ⟨["AuthorA", "Deep", "file.unity3d"], none⟩ = "AuthorA") ∧
      get_author_from_path ⟨["AuthorA", "Deep", "file.unity3d"], none⟩ =
        "Unknown" ∧
      ¬ (get_author_from_path ⟨["AuthorA", "Deep", "file.unity3d"], none⟩ =
        "AuthorA") := by
  decide

/-- Claim C7 (amended): author inference is a pure function of the path,
but computes the sentinel and folder differently from the claim:
`_guess_author` returns "Unknown" for a file directly in the Dances root
and otherwise the name of the file's immediate parent folder (the last
directory component, not the first); `get_author_from_path` returns the
alias of the first path component (filename included) found in
`AUTHOR_MAP`, and when no component is in the table it returns "Unknown"
for paths all of whose components (and parent name) miss the table. -/
theorem author_inference_behavior :
    (∀ (fn : String) (hh : Option String), guess_author ⟨[fn], hh⟩ = "Unknown") ∧
      (∀ (ds : List String) (fn : String) (hh : Option String), ds ≠ [] →
        guess_author ⟨ds ++ [fn], hh⟩ = ds.getLastD "Unknown") ∧
      (∀ (ds : List String) (fn : String) (hh : Option String),
        (∀ p ∈ ds ++ [fn], lookup AUTHOR_MAP p = none) →
        get_author_from_path ⟨ds ++ [fn], hh⟩ = "Unknown") ∧
      (∀ (pre post : List String) (part : String) (hh : Option String),
        (∀ p ∈ pre, lookup AUTHOR_MAP p = none) →
        (lookup AUTHOR_MAP part).isSome →
        get_author_from_path ⟨pre ++ part :: post, hh⟩ = part) := by
  refine ⟨?_, ?_, ?_, ?_⟩
  · intro fn hh
    simp [guess_author]
  · intro ds fn hh hne
    have hpos : 0 < ds.length := List.length_pos.mpr hne
    have hlen : ¬ ((ds ++ [fn]).length ≤ 1) := by
      rw [List.length_append]
      simp only [List.length_cons, List.length_nil]
      omega
    have hga : guess_author ⟨ds ++ [fn], hh⟩ =
        (ds ++ [fn]).dropLast.getLastD "Unknown" := by
      unfold guess_author
      rw [if_neg hlen]
    rw [hga, List.dropLast_concat]
  · intro ds fn hh hmap
    have hfindn : (ds ++ [fn]).find?
        (fun part => (lookup AUTHOR_MAP part).isSome) = none := by
      refine List.find?_eq_none.mpr ?_
      intro x hx
      rw [hmap x hx]
      simp
    unfold get_author_from_path
    rw [hfindn]
    cases ds with
    | nil =>
        show (lookup AUTHOR_MAP
            (if (([] : List String) ++ [fn]).length ≤ 1 then "Dances"
             else (([] : List String) ++ [fn]).dropLast.getLastD "Dances")).getD
            "Unknown" = "Unknown"
        rw [if_pos (by simp), authormap_dances]
        rfl
    | cons d ds2 =>
        have hlen : ¬ (((d :: ds2) ++ [fn]).length ≤ 1) := by
          rw [List.length_append]
          simp only [List.length_cons, List.length_nil]
          omega
        have hparent : lookup AUTHOR_MAP ((d :: ds2).getLastD "Dances") = none :=
          hmap _ (List.mem_append.mpr
            (Or.inl (getLastD_mem (d :: ds2) "Dances" (by simp))))
        show (lookup AUTHOR_MAP
            (if ((d :: ds2) ++ [fn]).length ≤ 1 then "Dances"
             else ((d :: ds2) ++ [fn]).dropLast.getLastD "Dances")).getD
            "Unknown" = "Unknown"
        rw [if_neg hlen]
        have hdrop : ((d :: ds2) ++ [fn]).dropLast = d :: ds2 :=
          List.dropLast_concat
        rw [hdrop, hparent]
        rfl
  · intro pre post part hh hpre hsome
    have hfind : (pre ++ part :: post).find?
        (fun p => (lookup AUTHOR_MAP p).isSome) = some part := by
      induction pre with
      | nil => exact List.find?_cons_of_pos _ hsome
      | cons d pre2 ih =>
          rw [List.cons_append, List.find?_cons_of_neg]
          · exact ih (fun x hx => hpre x (List.mem_cons.mpr (Or.inr hx)))
          · rw [hpre d (List.mem_cons_self d pre2)]
            simp
    simp only [get_author_from_path, hfind]
    exact authormap_getD part hsome

/-- Witness for the amended C7 theorem: all four behaviours at concrete
paths. -/
theorem author_inference_behavior_witness :
    guess_author ⟨["f.unity3d"], none⟩ = "Unknown" ∧
      guess_author ⟨["A", "B"] ++ ["f.unity3d"], none⟩ =
        (["A", "B"] : List String).getLastD "Unknown" ∧
      get_author_from_path ⟨["A", "B"] ++ ["f.unity3d"], none⟩ = "Unknown" ∧
      get_author_from_path ⟨["X"] ++ "tanito" :: ["f.unity3d"], none⟩ =
        "tanito" :=
  ⟨author_inference_behavior.1 "f.unity3d" none,
    author_inference_behavior.2.1 ["A", "B"] "f.unity3d" none (by decide),
    author_inference_behavior.2.2.1 ["A", "B"] "f.unity3d" none (by decide),
    author_inference_behavior.2.2.2 ["X"] ["f.unity3d"] "tanito" none
      (by decide) (by decide)⟩

/-- Claim C6 counterexample: `save_db`'s first file operation truncates the
catalog file in place, so after the prefix consisting of just the open the
on-disk file is empty — neither the old content nor the new content —
refuting the write-new-then-replace discipline. -/
theorem claim_atomic_save_counterexample :
    ([FsOp.openTrunc] ++ [FsOp.writeChunk "NEWDATA", FsOp.closeFile] =
        save_db_ops "NEWDATA") ∧
      runOps "OLDDATA" [FsOp.openTrunc] = "" ∧
      ¬ (runOps "OLDDATA" [FsOp.openTrunc] = "OLDDATA" ∨
        runOps "OLDDATA" [FsOp.openTrunc] =
          runOps "OLDDATA" (save_db_ops "NEWDATA")) := by
  decide

/-- Claim C6 (amended): `save_db` opens the catalog file itself in truncate
mode and writes the new serialization directly into it — it performs no
temp-file-and-rename step, and immediately after the truncating open the
file holds neither the previous content nor the complete new content, so
an interruption at that point loses the previously persisted catalog. -/
theorem save_write_discipline (old s : String) (hold : old ≠ "") (hs : s ≠ "") :
    FsOp.renameReplace ∉ save_db_ops s ∧
      ∃ p q : List FsOp, p ++ q = save_db_ops s ∧
        runOps old p ≠ old ∧ runOps old p ≠ runOps old (save_db_ops s) := by
  constructor
  · simp [save_db_ops]
  · refine ⟨[FsOp.openTrunc], [FsOp.writeChunk s, FsOp.closeFile], rfl, ?_, ?_⟩
    · show ("" : String) ≠ old
      exact fun hcontr => hold hcontr.symm
    · have hfin : runOps old (save_db_ops s) = s := by
        show ("" : String) ++ s = s
        exact String.empty_append s
      rw [hfin]
      show ("" : String) ≠ s
      exact fun hcontr => hs hcontr.symm

/-- Witness for the amended C6 theorem at concrete contents. -/
theorem save_write_discipline_witness :
    FsOp.renameReplace ∉ save_db_ops "NEWDATA" ∧
      ∃ p q : List FsOp, p ++ q = save_db_ops "NEWDATA" ∧
        runOps "OLDDATA" p ≠ "OLDDATA" ∧
        runOps "OLDDATA" p ≠ runOps "OLDDATA" (save_db_ops "NEWDATA") :=
  save_write_discipline "OLDDATA" "NEWDATA" (by decide) (by decide)

end DanceInfo
